import Mathlib

/-!
Verification development for a container-configuration linter.

The tool parses a build script (an ordered directive file) into a sequence of
instructions, runs a fixed set of rules over the parsed structure (and over a
deserialized multi-service descriptor), scores the resulting issue list per
category, and assembles a severity-sorted report.

This file gives a shallow embedding of the relevant source functions and
proves properties about them.  Strings are modelled as `List Char` (`Str`);
Rust string primitives (`trim`, `split`, `to_uppercase`,
`eq_ignore_ascii_case`, the whitespace class of regexes, ...) are modelled on
that representation with ASCII case folding and the core whitespace set, which
is faithful for the ASCII inputs this format consists of.  Statically compiled
regexes are modelled by equivalent explicit character scans, documented at
each definition.
-/

/-- Strings are modelled as lists of characters so that every operation is a
transparent structural computation. -/
abbrev Str := List Char

/-- Conversion from Lean string literals to the model representation. -/
def str (s : String) : Str := s.data

/-- Whitespace class: models Rust `char::is_whitespace` and the regex class
used by the parser (ASCII subset). -/
def isWs (c : Char) : Bool := c.isWhitespace

/-- Models Rust `str::trim`: drop leading and trailing whitespace. -/
def trimS (s : Str) : Str := List.rdropWhile isWs (s.dropWhile isWs)

/-- Models Rust `str::to_uppercase` (ASCII case folding). -/
def upperS (s : Str) : Str := s.map Char.toUpper

/-- Models Rust `str::to_lowercase` (ASCII case folding). -/
def lowerS (s : Str) : Str := s.map Char.toLower

/-- Models Rust `str::eq_ignore_ascii_case`. -/
def eqIgnoreAsciiCase (a b : Str) : Bool := lowerS a == lowerS b

/-- Models Rust `haystack.contains(needle)` for string needles: `needle` occurs
as a contiguous substring of `hay`. -/
def containsSeq (needle : Str) : Str → Bool
  | [] => needle.isEmpty
  | c :: rest => needle.isPrefixOf (c :: rest) || containsSeq needle rest

/-- Models Rust `s.split(sep)`: the segments of `s` between occurrences of the
separator character (`n` separators yield `n + 1` segments, empties kept). -/
def splitOnCharL (sep : Char) : Str → List Str
  | [] => [[]]
  | c :: rest =>
    match splitOnCharL sep rest with
    | [] => [[c]]
    | h :: t => if c == sep then [] :: h :: t else (c :: h) :: t

/-- Severity of an issue.  Mirrors the source enum; the derived total order is
declaration order: `Suggestion < Warning < Critical`. -/
inductive Severity where
  | Suggestion : Severity
  | Warning : Severity
  | Critical : Severity
deriving DecidableEq

/-- Numeric rank realising the derived `Ord` on `Severity`
(`Suggestion < Warning < Critical`). -/
def sevRank : Severity → Nat
  | .Suggestion => 0
  | .Warning => 1
  | .Critical => 2

/-- Impact estimate attached to an issue (four optional text fields, in source
field order). -/
structure ImpactEstimate where
  build_time_improvement : Option Str
  image_size_reduction : Option Str
  security_improvement : Option Str
  reliability_improvement : Option Str
deriving DecidableEq

/-- One rule-violation finding.  `line_number` is `none` when the violation has
no single anchor line. -/
structure Issue where
  rule_id : Str
  rule_name : Str
  severity : Severity
  line_number : Option Nat
  message : Str
  fix_suggestion : Option Str
  impact : Option ImpactEstimate
deriving DecidableEq

/-- One parsed directive of the build script. -/
structure Instruction where
  name : Str
  arguments : Str
  line_number : Nat
  raw_line : Str
deriving DecidableEq

/-- The fixed closed keyword set of the directive regex, in source order. -/
def KEYWORDS : List Str :=
  [str "FROM", str "RUN", str "CMD", str "LABEL", str "EXPOSE", str "ENV",
   str "ADD", str "COPY", str "ENTRYPOINT", str "VOLUME", str "USER",
   str "WORKDIR", str "ARG", str "ONBUILD", str "STOPSIGNAL",
   str "HEALTHCHECK", str "SHELL", str "MAINTAINER"]

/-- Does the case-insensitive literal `k` match at the start of `t`, followed by
at least one whitespace character?  Together with `matchInstr` this models the
anchored instruction regex (case-insensitive keyword alternation, then
one-or-more whitespace, then the argument capture). -/
def keywordAt (t : Str) (k : Str) : Bool :=
  upperS (t.take k.length) == k &&
    match t.drop k.length with
    | c :: _ => isWs c
    | [] => false

/-- Models the instruction regex applied to a trimmed line: on success returns
the uppercased keyword capture and the argument capture (the remainder after
the greedy whitespace run following the keyword).  The keyword alternation is
prefix-free, so `find?` over the list returns the unique matching keyword. -/
def matchInstr (t : Str) : Option (Str × Str) :=
  (KEYWORDS.find? (fun k => keywordAt t k)).map
    (fun k => (upperS (t.take k.length), (t.drop k.length).dropWhile isWs))

/-- Models the continuation regex test (a backslash followed only by trailing
whitespace) on a line or argument string. -/
def contMatch (s : Str) : Bool :=
  (List.rdropWhile isWs s).getLast? == some '\\'

/-- Models replacing the first (and only possible) continuation-regex match by
the empty string: remove the trailing backslash-plus-whitespace suffix if
present, otherwise leave the string unchanged. -/
def stripCont (s : Str) : Str :=
  let t := List.rdropWhile isWs s
  if t.getLast? == some '\\' then t.dropLast else s

/-- The in-progress instruction while the parser consumes continuation lines:
the matched keyword, the accumulated argument text, the accumulated raw text,
and the 1-indexed starting line. -/
structure Pending where
  name : Str
  args : Str
  raw : Str
  start : Nat
deriving DecidableEq

/-- One step of the continuation loop body: strip a trailing continuation
marker from the accumulated arguments, append a space and the consumed trimmed
line, and append the line to the raw text after a newline. -/
def extendP (p : Pending) (c : Str) : Pending :=
  { p with args := stripCont p.args ++ ' ' :: c, raw := p.raw ++ '\n' :: c }

/-- Emit the accumulated instruction (arguments are trimmed at emission, as in
the source). -/
def finishP (p : Pending) : Instruction :=
  { name := p.name, arguments := trimS p.args, line_number := p.start,
    raw_line := p.raw }

/-- The parser loop over physical lines.  The source is a single `while` loop
with an inner continuation `while` loop advancing a shared index; it is
linearised here as a structurally recursive scan carrying the optional pending
instruction: `some p` is the state inside the inner continuation loop (the
previously examined line carried a continuation marker, so the next physical
line is consumed), `none` is the top of the outer loop.  `i` is the 0-indexed
position of the current line. -/
def parseAuxS : Option Pending → List Str → Nat → List Instruction
  | none, [], _ => []
  | some p, [], _ => [finishP p]
  | some p, l :: rest, i =>
    let c := trimS l
    let p' := extendP p c
    if contMatch c then parseAuxS (some p') rest (i + 1)
    else finishP p' :: parseAuxS none rest (i + 1)
  | none, l :: rest, i =>
    let t := trimS l
    if t.isEmpty || t.head? == some '#' then parseAuxS none rest (i + 1)
    else
      match matchInstr t with
      | none => parseAuxS none rest (i + 1)
      | some (nm, args0) =>
        if contMatch t then parseAuxS (some ⟨nm, args0, t, i + 1⟩) rest (i + 1)
        else ⟨nm, trimS args0, i + 1, t⟩ :: parseAuxS none rest (i + 1)

/-- Models Rust `str::lines` on the model representation: split at `'\n'`,
strip a `'\r'` left at the end of a line by a `"\r\n"` ending, and do not
produce a final empty line for a trailing line terminator. -/
def rustLinesAux (acc : Str) : Str → List Str
  | [] => if acc.isEmpty then [] else [acc.reverse]
  | c :: cs =>
    if c == '\n' then
      (let line := acc.reverse
       if line.getLast? == some '\r' then line.dropLast else line) ::
        rustLinesAux [] cs
    else rustLinesAux (c :: acc) cs

/-- Models Rust `str::lines` (see `rustLinesAux`). -/
def rustLines (s : Str) : List Str := rustLinesAux [] s

/-- Models `DockerfileParser::parse_content`, returning the instruction
sequence.  Total by construction: no input text can produce an error. -/
def parse_content (content : String) : List Instruction :=
  parseAuxS none (rustLines (str content)) 0

/-- Models `DockerfileParser::get_instructions`: all instructions with the
given name, in original order, compared ASCII-case-insensitively. -/
def getInstructions (instrs : List Instruction) (name : Str) : List Instruction :=
  instrs.filter (fun ins => eqIgnoreAsciiCase ins.name name)

/-- Spec-side description of continuation consumption (named from the spec's
words, for comparison with the parser): once a directive line carries a
trailing continuation marker, the next physical line is consumed (trimmed),
and consumption continues while the just-consumed line itself ends with a
continuation marker and input remains. -/
def consumedLines : List Str → List Str
  | [] => []
  | l :: rest =>
    trimS l :: (if contMatch (trimS l) then consumedLines rest else [])

/-- Spec-side: join pieces with a single separator character between them. -/
def specJoin (sep : Char) : List Str → Str
  | [] => []
  | [x] => x
  | x :: y :: rest => x ++ sep :: specJoin sep (y :: rest)

/-- Spec-side: strip the trailing continuation marker from every consumed line
except the final one (the final consumed line is never stripped: either it has
no marker, or input ended before another iteration could strip it). -/
def stripAllButLast : List Str → List Str
  | [] => []
  | [c] => [c]
  | c :: y :: rest => stripCont c :: stripAllButLast (y :: rest)

/-- Spec-side: the joined argument text of a continuation group: the initial
argument capture followed by the consumed lines, each marker-stripped except
the last, joined by single added spaces. -/
def specArgsJoin (first : Str) : List Str → Str
  | [] => first
  | c :: rest => specJoin ' ' (stripCont first :: stripAllButLast (c :: rest))

/-- Shape invariant of a consumed-lines list: every line is right-trimmed and
every line except the last ends with a continuation marker. -/
def chainOk : List Str → Prop
  | [] => True
  | [c] => List.rdropWhile isWs c = c
  | c :: y :: rest =>
    List.rdropWhile isWs c = c ∧ contMatch c = true ∧ chainOk (y :: rest)

/-- Invariant carried by the parser state: a pending instruction holds a
keyword name and a 1-indexed start line no later than the current position. -/
def modeOk : Option Pending → Nat → Prop
  | none, _ => True
  | some p, i => p.name ∈ KEYWORDS ∧ 1 ≤ p.start ∧ p.start ≤ i

/-- Lower bound on the line numbers the parser can still emit from a given
state. -/
def lineLB : Option Pending → Nat → Nat
  | none, i => i + 1
  | some p, _ => p.start

/-- Fix text of the unpinned-base-image rule. -/
def latestTagFix : Str :=
  str "Pin to a specific version tag (e.g., FROM node:18.17.0-alpine)"

/-- Impact record of the unpinned-base-image rule. -/
def latestTagImpact : ImpactEstimate :=
  { build_time_improvement := none, image_size_reduction := none,
    security_improvement :=
      some (str "Prevents unexpected vulnerability introduction"),
    reliability_improvement := some (str "100% build reproducibility") }

/-- The fixed well-known base-image names of the unpinned-base-image rule. -/
def COMMON_IMAGES : List Str :=
  [str "alpine", str "ubuntu", str "debian", str "node", str "python",
   str "golang", str "rust", str "nginx", str "redis", str "postgres",
   str "mysql"]

/-- Models `args.split_whitespace().next().unwrap_or("")`: the first maximal
whitespace-free token, or the empty string. -/
def splitWhitespaceFirst (s : Str) : Str :=
  (s.dropWhile isWs).takeWhile (fun c => !isWs c)

/-- Models the explicit-tag regex (an anchored nonempty run free of colon,
at-sign and whitespace, then a colon, then at least one character that is
neither an at-sign nor whitespace). -/
def explicitTagMatch (s : Str) : Bool :=
  let p := s.takeWhile (fun c => !(c == ':' || c == '@' || isWs c))
  !p.isEmpty &&
    match s.drop p.length with
    | ':' :: c :: _ => !(c == '@' || isWs c)
    | _ => false

/-- The issue pushed for an explicit `:latest` tag. -/
def latestTagIssueExplicit (ln : Nat) (ref : Str) : Issue :=
  { rule_id := str "DF001", rule_name := str "Using latest tag",
    severity := .Critical, line_number := some ln,
    message := str "Image \x27" ++ ref ++
      str "\x27 explicitly uses \x27:latest\x27 tag",
    fix_suggestion := some latestTagFix, impact := some latestTagImpact }

/-- The issue pushed for a missing tag (implicit `latest`). -/
def latestTagIssueNoTag (ln : Nat) (ref : Str) : Issue :=
  { rule_id := str "DF001", rule_name := str "Using latest tag",
    severity := .Critical, line_number := some ln,
    message := str "Image \x27" ++ ref ++
      str "\x27 has no tag (implicitly uses \x27latest\x27)",
    fix_suggestion := some latestTagFix, impact := some latestTagImpact }

/-- Models the loop body of `LatestTagRule::check` for one base-image
directive: extract the image reference, skip `scratch`, skip prior-stage
alias references (no slash, colon or dot, and no well-known base-name
prefix), then flag an explicit `:latest` tag, else flag a missing tag when
neither the explicit-tag regex matches nor a digest separator occurs. -/
def latestTagCheckInstr (ins : Instruction) : List Issue :=
  let ref := splitWhitespaceFirst ins.arguments
  if ref == str "scratch" then []
  else if (!ref.contains '/' && !ref.contains ':' && !ref.contains '.') &&
      !(COMMON_IMAGES.any (fun img => img.isPrefixOf ref)) then []
  else if (str ":latest").isSuffixOf ref then [latestTagIssueExplicit ins.line_number ref]
  else if !explicitTagMatch ref && !ref.contains '@' then
    [latestTagIssueNoTag ins.line_number ref]
  else []

/-- Models `LatestTagRule::check`: the per-directive issues over all
base-image directives, in order. -/
def latestTagCheck (instrs : List Instruction) : List Issue :=
  (getInstructions instrs (str "FROM")).flatMap latestTagCheckInstr

/-- The issue pushed when no user-switch directive exists (no anchor line). -/
def rootUserNoUserIssue : Issue :=
  { rule_id := str "DF002", rule_name := str "Running as root",
    severity := .Critical, line_number := none,
    message := str "No USER instruction found - container will run as root",
    fix_suggestion := some (str "Add a USER instruction to switch to a non-root user (e.g., USER node, USER 1000)"),
    impact := some
      { build_time_improvement := none, image_size_reduction := none,
        security_improvement := some (str "Major security improvement - reduces container breakout risk"),
        reliability_improvement := none } }

/-- The issue pushed when the last user-switch directive selects root. -/
def rootUserRootIssue (ln : Nat) : Issue :=
  { rule_id := str "DF002", rule_name := str "Running as root",
    severity := .Critical, line_number := some ln,
    message := str "Container explicitly set to run as root",
    fix_suggestion := some (str "Add a USER instruction to switch to a non-root user (e.g., USER node, USER 1000)"),
    impact := some
      { build_time_improvement := none, image_size_reduction := none,
        security_improvement := some (str "Major security improvement - reduces container breakout risk"),
        reliability_improvement := none } }

/-- Models `RootUserRule::check`: flag when no user-switch directive exists;
otherwise flag only when the last one, trimmed and lowercased, is `root` or
`0`. -/
def rootUserCheck (instrs : List Instruction) : List Issue :=
  let users := getInstructions instrs (str "USER")
  if users.isEmpty then [rootUserNoUserIssue]
  else
    match users.getLast? with
    | some lastUser =>
      let user := lowerS (trimS lastUser.arguments)
      if user == str "root" || user == str "0" then
        [rootUserRootIssue lastUser.line_number]
      else []
    | none => []

/-- Environment of a service: polymorphic over shape, either an ordered list
of `KEY=VALUE` strings or a key-to-optional-value mapping (the source backs
the mapping by a hash map; it is modelled as an association list, which is
adequate because the rule only takes an order-independent existential over
the entries). -/
inductive Environment where
  | list : List Str → Environment
  | map : List (Str × Option Str) → Environment
deriving DecidableEq

/-- One service of the descriptor.  Only the field consulted by the modelled
rule is carried; the remaining ~20 optional fields of the source record are
not consulted by the hardcoded-secret rule. -/
structure Service where
  environment : Option Environment
deriving DecidableEq

/-- The descriptor tree (fields not consulted by the modelled rule are
omitted; `services` is modelled as an association list, see
`Environment`). -/
structure ComposeFile where
  version : Option Str
  services : Option (List (Str × Service))
deriving DecidableEq

/-- The keyword alternation of the secret regex: the pattern is unanchored, so
a match is an occurrence of one of these words, case-insensitively, anywhere
in the haystack (the optional plural of the last word is irrelevant to a
bare match test). -/
def SECRET_WORDS : List Str :=
  [str "password", str "passwd", str "secret", str "api_key", str "apikey",
   str "auth_token", str "access_token", str "private_key", str "credential"]

/-- Models `SECRET_PATTERN.is_match` (case-insensitive occurrence test). -/
def secretMatch (s : Str) : Bool :=
  SECRET_WORDS.any (fun w => containsSeq w (lowerS s))

/-- Models the list-shape branch of the hardcoded-secret rule: the whole
`KEY=VALUE` item is tested against the secret pattern, the item must contain
`=` and no substitution opener, and the segment between the first and second
`=` must be nonempty. -/
def hasSecretListItem (item : Str) : Bool :=
  if secretMatch item then
    if item.contains '=' && !containsSeq (str "$\x7b") item then
      !(((splitOnCharL '=' item).get? 1).getD []).isEmpty
    else false
  else false

/-- Models the map-shape branch of the hardcoded-secret rule: the key is
tested against the secret pattern and the value must be present, nonempty,
and free of a substitution opener. -/
def hasSecretMapEntry (kv : Str × Option Str) : Bool :=
  if secretMatch kv.1 then
    match kv.2 with
    | some v => !v.isEmpty && !containsSeq (str "$\x7b") v
    | none => false
  else false

/-- Models the per-environment detection of `HardcodedSecretsRule::check`. -/
def hasHardcodedSecret : Environment → Bool
  | .list items => items.any hasSecretListItem
  | .map entries => entries.any hasSecretMapEntry

/-- The issue pushed by the hardcoded-secret rule for a flagged service. -/
def hardcodedSecretIssue (name : Str) : Issue :=
  { rule_id := str "DC005", rule_name := str "Hardcoded secrets",
    severity := .Critical, line_number := none,
    message := str "Service \x27" ++ name ++
      str "\x27 has hardcoded secret in environment",
    fix_suggestion := some (str "Use env_file, Docker secrets, or environment variable substitution ($\x7bVAR\x7d)"),
    impact := some
      { build_time_improvement := none, image_size_reduction := none,
        security_improvement := some (str "Critical - prevents credential exposure"),
        reliability_improvement := none } }

/-- Models `HardcodedSecretsRule::check`: one issue per service whose
environment contains a hardcoded secret. -/
def hardcodedSecretsCheck (compose : ComposeFile) : List Issue :=
  match compose.services with
  | none => []
  | some svcs =>
    svcs.flatMap (fun nameSvc =>
      match nameSvc.2.environment with
      | none => []
      | some env =>
        if hasHardcodedSecret env then [hardcodedSecretIssue nameSvc.1]
        else [])

/-- Stable insertion of an issue into a severity-descending list: walk past
strictly higher severities and stop before the first equal-or-lower one, so an
element inserted from further left in the input comes before its equals. -/
def insertIssue (x : Issue) : List Issue → List Issue
  | [] => [x]
  | y :: ys =>
    if sevRank x.severity < sevRank y.severity then y :: insertIssue x ys
    else x :: y :: ys

/-- Models `issues.sort_by(b.severity.cmp(a.severity))`: the stable sort of
the issue list by strictly descending severity under the derived total order.
Rust guarantees its sort is stable, and a stable sort's output is uniquely
determined by the comparator (see the permutation, sortedness and stability
theorems below), so stable insertion sort is an exact model. -/
def sortIssues (l : List Issue) : List Issue := l.foldr insertIssue []

/-- The security-category rule ids (source order). -/
def SECURITY_IDS : List Str :=
  [str "DF001", str "DF002", str "DF006", str "DF010", str "DC002",
   str "DC004", str "DC005"]

/-- The performance-category rule ids (source order). -/
def PERFORMANCE_IDS : List Str :=
  [str "DF003", str "DF004", str "DF007", str "DF008", str "DF009"]

/-- The maintainability-category rule ids (source order). -/
def MAINTAINABILITY_IDS : List Str :=
  [str "DF005", str "DC001", str "DC003"]

/-- Wrap an integer into the two's-complement range of an 8-bit signed
machine integer, as release-mode Rust arithmetic does on each operation
(debug builds panic on the same overflow). -/
def wrapI8 (x : Int) : Int := (x + 128) % 256 - 128

/-- The deduction applied per matching issue. -/
def sevDeduction : Severity → Int
  | .Critical => 3
  | .Warning => 2
  | .Suggestion => 1

/-- Models `calculate_category_score`: start at 10, subtract the severity
deduction for every issue whose rule id is in the category (an `i8`
subtraction, wrapping in release builds), then clamp below at 0 and widen to
an unsigned byte. -/
def calculate_category_score (issues : List Issue) (ruleIds : List Str) : Nat :=
  let score : Int := issues.foldl
    (fun s i =>
      if ruleIds.contains i.rule_id then wrapI8 (s - sevDeduction i.severity)
      else s)
    10
  (max score 0).toNat

/-- Spec-side category score, written from the spec's words: 10 minus 3 per
matching Critical, 2 per matching Warning and 1 per matching Suggestion,
floored at 0. -/
def specCategoryScore (issues : List Issue) (ruleIds : List Str) : Nat :=
  let matching := issues.filter (fun i => ruleIds.contains i.rule_id)
  let deduction : Int :=
    3 * (matching.filter (fun i => i.severity == .Critical)).length +
    2 * (matching.filter (fun i => i.severity == .Warning)).length +
    1 * (matching.filter (fun i => i.severity == .Suggestion)).length
  (max (10 - deduction) 0).toNat

/-- A category score paired with its constant ceiling. -/
structure Score where
  current : Nat
  potential : Nat
deriving DecidableEq

/-- The four category scores (source field order). -/
structure Scores where
  performance : Score
  security : Score
  maintainability : Score
  overall : Score
deriving DecidableEq

/-- Models `u8::saturating_mul` for the small factors used by the overall
score. -/
def satMulU8 (a b : Nat) : Nat := min (a * b) 255

/-- Models `calculate_scores`: the three category scores, and the overall
weighted average `(security*4 + performance*3 + maintainability*3) / 10`
computed in unsigned-byte arithmetic (saturating multiplications, wrapping
additions, flooring division); every potential score is the constant 10. -/
def calculate_scores (issues : List Issue) : Scores :=
  let security_current := calculate_category_score issues SECURITY_IDS
  let performance_current := calculate_category_score issues PERFORMANCE_IDS
  let maintainability_current :=
    calculate_category_score issues MAINTAINABILITY_IDS
  let overall_current :=
    ((satMulU8 security_current 4 + satMulU8 performance_current 3 +
      satMulU8 maintainability_current 3) % 256) / 10
  { performance := { current := performance_current, potential := 10 },
    security := { current := security_current, potential := 10 },
    maintainability := { current := maintainability_current, potential := 10 },
    overall := { current := overall_current, potential := 10 } }

/-- The rule metadata consulted by the registry lookup (id, display name and
severity; the remaining static metadata texts are not consulted by
`get_rule_by_id`). -/
structure RuleMeta where
  id : Str
  name : Str
  severity : Severity
deriving DecidableEq

/-- The ten directive rules of the registry, in registration order. -/
def DOCKERFILE_RULES : List RuleMeta :=
  [⟨str "DF001", str "Using latest tag", .Critical⟩,
   ⟨str "DF002", str "Running as root", .Critical⟩,
   ⟨str "DF003", str "No .dockerignore", .Warning⟩,
   ⟨str "DF004", str "Bad layer ordering", .Warning⟩,
   ⟨str "DF005", str "No HEALTHCHECK", .Warning⟩,
   ⟨str "DF006", str "Secrets in ENV", .Critical⟩,
   ⟨str "DF007", str "No version pinning", .Warning⟩,
   ⟨str "DF008", str "Missing multi-stage build", .Suggestion⟩,
   ⟨str "DF009", str "Large base image", .Suggestion⟩,
   ⟨str "DF010", str "Curl pipe to shell", .Critical⟩]

/-- The five descriptor rules of the registry, in registration order. -/
def COMPOSE_RULES : List RuleMeta :=
  [⟨str "DC001", str "No restart policy", .Warning⟩,
   ⟨str "DC002", str "Privileged container", .Critical⟩,
   ⟨str "DC003", str "No resource limits", .Warning⟩,
   ⟨str "DC004", str "Using latest tag", .Critical⟩,
   ⟨str "DC005", str "Hardcoded secrets", .Critical⟩]

/-- Models `get_all_rules`: directive rules followed by descriptor rules. -/
def get_all_rules : List RuleMeta := DOCKERFILE_RULES ++ COMPOSE_RULES

/-- Models `get_rule_by_id`: uppercase the query and return the first
registered rule whose id equals it. -/
def get_rule_by_id (idStr : Str) : Option RuleMeta :=
  get_all_rules.find? (fun r => r.id == upperS idStr)

/-- A single Critical issue carried by the security category (the issue the
source scoring test constructs). -/
def df001CriticalIssue : Issue :=
  { rule_id := str "DF001", rule_name := str "Test", severity := .Critical,
    line_number := some 1, message := str "Test", fix_suggestion := none,
    impact := none }

/-- The four concretely tagged issues of the claimed sorting example, in
emission order Warning, Critical, Suggestion, Critical. -/
def exIssueW : Issue :=
  { rule_id := str "DF005", rule_name := str "No HEALTHCHECK",
    severity := .Warning, line_number := none,
    message := str "warning issue", fix_suggestion := none, impact := none }

/-- First Critical issue of the sorting example. -/
def exIssueC1 : Issue :=
  { rule_id := str "DF001", rule_name := str "Using latest tag",
    severity := .Critical, line_number := some 1,
    message := str "first critical", fix_suggestion := none, impact := none }

/-- Suggestion issue of the sorting example. -/
def exIssueS : Issue :=
  { rule_id := str "DF009", rule_name := str "Large base image",
    severity := .Suggestion, line_number := some 2,
    message := str "suggestion issue", fix_suggestion := none,
    impact := none }

/-- Second Critical issue of the sorting example. -/
def exIssueC2 : Issue :=
  { rule_id := str "DF002", rule_name := str "Running as root",
    severity := .Critical, line_number := some 3,
    message := str "second critical", fix_suggestion := none, impact := none }

theorem extendP_start (p : Pending) (c : Str) : (extendP p c).start = p.start :=
  rfl

theorem finishP_line (p : Pending) : (finishP p).line_number = p.start :=
  rfl

theorem trimS_rdropWhile (l : Str) : List.rdropWhile isWs (trimS l) = trimS l :=
  List.rdropWhile_idempotent _ _

theorem rdropWhile_eq_self_of_getLast? {α : Type _} {p : α → Bool} {l : List α}
    {a : α} (h : l.getLast? = some a) (hp : p a = false) :
    List.rdropWhile p l = l := by
  rw [List.rdropWhile_eq_self_iff]
  intro hl
  rw [List.getLast?_eq_getLast l hl, Option.some.injEq] at h
  rw [h, hp]
  simp

theorem getLast?_append_cons {X c : Str} {ch s : Char}
    (h : c.getLast? = some ch) : (X ++ s :: c).getLast? = some ch := by
  have hc : c ≠ [] := by
    intro he
    rw [he] at h
    simp at h
  rw [List.getLast?_append]
  rw [List.getLast?_cons, h]
  simp

theorem stripCont_of_getLast {c : Str} (h : c.getLast? = some '\\') :
    stripCont c = c.dropLast := by
  simp only [stripCont]
  rw [rdropWhile_eq_self_of_getLast? h (by decide), h]
  simp

theorem stripCont_append_cons (X : Str) {c : Str}
    (h : c.getLast? = some '\\') :
    stripCont (X ++ ' ' :: c) = X ++ ' ' :: c.dropLast := by
  have hc : c ≠ [] := by
    intro he
    rw [he] at h
    simp at h
  have hl : (X ++ ' ' :: c).getLast? = some '\\' := getLast?_append_cons h
  simp only [stripCont]
  rw [rdropWhile_eq_self_of_getLast? hl (by decide), hl]
  simp only [beq_self_eq_true, if_pos]
  rw [List.dropLast_append_of_ne_nil _ (by simp), List.dropLast_cons_of_ne_nil hc]

theorem contMatch_getLast {c : Str} (ht : List.rdropWhile isWs c = c)
    (hm : contMatch c = true) : c.getLast? = some '\\' := by
  unfold contMatch at hm
  rw [ht] at hm
  exact eq_of_beq hm

theorem specJoin_shift (sep : Char) (A B : Str) (L : List Str) :
    specJoin sep ((A ++ sep :: B) :: L) = A ++ sep :: specJoin sep (B :: L) := by
  cases L with
  | nil => rfl
  | cons y rest => simp [specJoin, List.append_assoc]

theorem foldl_extendP_name (L : List Str) (p : Pending) :
    (List.foldl extendP p L).name = p.name := by
  induction L generalizing p with
  | nil => rfl
  | cons c L ih => rw [List.foldl_cons, ih]; rfl

theorem foldl_extendP_start (L : List Str) (p : Pending) :
    (List.foldl extendP p L).start = p.start := by
  induction L generalizing p with
  | nil => rfl
  | cons c L ih => rw [List.foldl_cons, ih]; rfl

theorem foldl_extendP_raw (L : List Str) (p : Pending) :
    (List.foldl extendP p L).raw = specJoin '\n' (p.raw :: L) := by
  induction L generalizing p with
  | nil => rfl
  | cons c L ih =>
    rw [List.foldl_cons, ih]
    exact specJoin_shift '\n' p.raw c L

theorem foldl_extendP_args (L : List Str) (p : Pending) (h : chainOk L) :
    (List.foldl extendP p L).args = specArgsJoin p.args L := by
  induction L generalizing p with
  | nil => rfl
  | cons c L ih =>
    cases L with
    | nil => rfl
    | cons c2 L2 =>
      obtain ⟨htrim, hcont, hrest⟩ := h
      have hlast : c.getLast? = some '\\' := contMatch_getLast htrim hcont
      rw [List.foldl_cons, ih _ hrest]
      show specArgsJoin (stripCont p.args ++ ' ' :: c) (c2 :: L2) =
        specArgsJoin p.args (c :: c2 :: L2)
      simp only [specArgsJoin, stripAllButLast]
      rw [stripCont_append_cons _ hlast, ← stripCont_of_getLast hlast]
      exact specJoin_shift ' ' (stripCont p.args) (stripCont c)
        (stripAllButLast (c2 :: L2))

theorem chainOk_consumedLines (ls : List Str) : chainOk (consumedLines ls) := by
  induction ls with
  | nil => trivial
  | cons l rest ih =>
    simp only [consumedLines]
    cases hcont : contMatch (trimS l) with
    | false => simpa [chainOk] using trimS_rdropWhile l
    | true =>
      simp only [if_pos]
      cases h2 : consumedLines rest with
      | nil => simpa [chainOk] using trimS_rdropWhile l
      | cons c2 r2 =>
        rw [h2] at ih
        exact ⟨trimS_rdropWhile l, hcont, ih⟩

theorem parseAuxS_some_eq (ls : List Str) (p : Pending) (i : Nat) :
    parseAuxS (some p) ls i =
      finishP (List.foldl extendP p (consumedLines ls)) ::
        parseAuxS none (ls.drop (consumedLines ls).length)
          (i + (consumedLines ls).length) := by
  induction ls generalizing p i with
  | nil => simp [parseAuxS, consumedLines]
  | cons l rest ih =>
    simp only [parseAuxS, consumedLines]
    cases hcont : contMatch (trimS l) with
    | false => simp [List.foldl_cons]
    | true =>
      simp only [if_pos, ih (extendP p (trimS l)) (i + 1), List.foldl_cons,
        List.length_cons, List.drop_succ_cons]
      have hidx : i + 1 + (consumedLines rest).length
          = i + ((consumedLines rest).length + 1) := by omega
      rw [hidx]

theorem matchInstr_name_mem {t nm args0 : Str}
    (h : matchInstr t = some (nm, args0)) : nm ∈ KEYWORDS := by
  unfold matchInstr at h
  cases hf : KEYWORDS.find? (fun k => keywordAt t k) with
  | none => rw [hf] at h; simp at h
  | some k =>
    rw [hf] at h
    simp only [Option.map_some', Option.some.injEq, Prod.mk.injEq] at h
    obtain ⟨h1, _⟩ := h
    have hk := List.find?_some hf
    have hmem := List.mem_of_find?_eq_some hf
    unfold keywordAt at hk
    have hup : upperS (t.take k.length) = k :=
      eq_of_beq ((Bool.and_eq_true _ _).mp hk).1
    rw [← h1, hup]
    exact hmem

theorem matchInstr_guard {t : Str} {x : Str × Str} (h : matchInstr t = some x) :
    (t.isEmpty || t.head? == some '#') = false := by
  unfold matchInstr at h
  cases hf : KEYWORDS.find? (fun k => keywordAt t k) with
  | none => rw [hf] at h; simp at h
  | some k =>
    have hk := List.find?_some hf
    have hmem := List.mem_of_find?_eq_some hf
    unfold keywordAt at hk
    have hup : upperS (t.take k.length) = k :=
      eq_of_beq ((Bool.and_eq_true _ _).mp hk).1
    have hkne : k ≠ [] := by
      have : ∀ k' ∈ KEYWORDS, k' ≠ ([] : Str) := by decide
      exact this k hmem
    cases t with
    | nil =>
      exfalso
      apply hkne
      rw [← hup]
      simp [upperS]
    | cons c t' =>
      simp only [List.isEmpty_cons, List.head?_cons, Bool.false_or]
      cases k with
      | nil => exact absurd rfl hkne
      | cons kc krest =>
        have hhd : Char.toUpper c = kc := by
          have : upperS ((c :: t').take (kc :: krest).length)
              = Char.toUpper c :: upperS (t'.take krest.length) := by
            simp [upperS]
          rw [this] at hup
          exact (List.cons.injEq _ _ _ _ ▸ hup).1
        have hcne : c ≠ '#' := by
          intro hc
          have hks : ∀ k' ∈ KEYWORDS, k'.head? ≠ some '#' := by decide
          apply hks (kc :: krest) hmem
          simp [← hhd, hc]
        simp [hcne]

theorem parseAuxS_invariant (ls : List Str) :
    ∀ (m : Option Pending) (i : Nat), modeOk m i →
      (∀ ins ∈ parseAuxS m ls i,
        ins.name ∈ KEYWORDS ∧ lineLB m i ≤ ins.line_number) ∧
      (parseAuxS m ls i).Pairwise
        (fun a b => a.line_number < b.line_number) := by
  induction ls with
  | nil =>
    intro m i hm
    cases m with
    | none => simp [parseAuxS]
    | some p =>
      obtain ⟨hk, h1, hle⟩ := hm
      constructor
      · intro ins hins
        simp only [parseAuxS, List.mem_singleton] at hins
        subst hins
        exact ⟨hk, le_refl _⟩
      · simp [parseAuxS]
  | cons l rest ih =>
    intro m i hm
    cases m with
    | some p =>
      obtain ⟨hk, h1, hle⟩ := hm
      cases hcont : contMatch (trimS l) with
      | true =>
        have hstep := ih (some (extendP p (trimS l))) (i + 1)
          ⟨hk, h1, by rw [extendP_start]; omega⟩
        simp only [parseAuxS, hcont, if_true]
        exact hstep
      | false =>
        have hstep := ih none (i + 1) trivial
        simp only [parseAuxS, hcont, Bool.false_eq_true, if_false]
        constructor
        · intro ins hins
          rcases List.mem_cons.mp hins with hh | ht
          · subst hh
            exact ⟨hk, le_refl _⟩
          · obtain ⟨hkk, hlb⟩ := hstep.1 ins ht
            exact ⟨hkk, by simp only [lineLB] at hlb ⊢; omega⟩
        · rw [List.pairwise_cons]
          refine ⟨?_, hstep.2⟩
          intro b hb
          have := (hstep.1 b hb).2
          simp only [lineLB] at this
          show (finishP (extendP p (trimS l))).line_number < b.line_number
          rw [finishP_line, extendP_start]
          omega
    | none =>
      cases hg : ((trimS l).isEmpty || (trimS l).head? == some '#') with
      | true =>
        have hstep := ih none (i + 1) trivial
        simp only [parseAuxS, hg, if_true]
        constructor
        · intro ins hins
          obtain ⟨hkk, hlb⟩ := hstep.1 ins hins
          exact ⟨hkk, by simp only [lineLB] at hlb ⊢; omega⟩
        · exact hstep.2
      | false =>
        simp only [parseAuxS, hg, Bool.false_eq_true, if_false]
        cases hmi : matchInstr (trimS l) with
        | none =>
          have hstep := ih none (i + 1) trivial
          constructor
          · intro ins hins
            obtain ⟨hkk, hlb⟩ := hstep.1 ins hins
            exact ⟨hkk, by simp only [lineLB] at hlb ⊢; omega⟩
          · exact hstep.2
        | some nmargs =>
          obtain ⟨nm, args0⟩ := nmargs
          have hnm : nm ∈ KEYWORDS := matchInstr_name_mem hmi
          cases hcont : contMatch (trimS l) with
          | true =>
            have hstep := ih (some ⟨nm, args0, trimS l, i + 1⟩) (i + 1)
              ⟨hnm, Nat.le_add_left 1 i, le_refl _⟩
            simp only [hcont, if_true]
            constructor
            · intro ins hins
              obtain ⟨hkk, hlb⟩ := hstep.1 ins hins
              exact ⟨hkk, hlb⟩
            · exact hstep.2
          | false =>
            have hstep := ih none (i + 1) trivial
            simp only [hcont, Bool.false_eq_true, if_false]
            constructor
            · intro ins hins
              rcases List.mem_cons.mp hins with hh | ht
              · subst hh
                exact ⟨hnm, le_refl _⟩
              · obtain ⟨hkk, hlb⟩ := hstep.1 ins ht
                exact ⟨hkk, by simp only [lineLB] at hlb ⊢; omega⟩
            · rw [List.pairwise_cons]
              refine ⟨?_, hstep.2⟩
              intro b hb
              have := (hstep.1 b hb).2
              simp only [lineLB] at this
              show i + 1 < b.line_number
              omega

/-- Claim C4: an issue list with exactly one Critical security-category issue
scores security 7, performance 10, maintainability 10, and overall
`floor((7*4 + 10*3 + 10*3) / 10) = 8`. -/
theorem claim_C4_one_critical_scores :
    df001CriticalIssue.rule_id ∈ SECURITY_IDS ∧
    (calculate_scores [df001CriticalIssue]).security.current = 7 ∧
    (calculate_scores [df001CriticalIssue]).performance.current = 10 ∧
    (calculate_scores [df001CriticalIssue]).maintainability.current = 10 ∧
    (calculate_scores [df001CriticalIssue]).overall.current = 8 := by
  decide

set_option maxRecDepth 8192 in
/-- Claim C1 (code bug): the category score is computed in a signed 8-bit
accumulator, so with 47 matching Critical issues the deduction overflows:
release builds wrap to a security score of 125 instead of the floor-at-0
value 0 the scoring comments, the clamp `score.max(0)` and the spec describe
(debug builds panic on the same input).  The 47 issues are reachable from a
real input, e.g. a build script with 47 untagged well-known base-image
directives. -/
theorem claim_C1_overflow_at_47_criticals :
    (calculate_scores
      (List.replicate 47 df001CriticalIssue)).security.current = 125 ∧
    specCategoryScore (List.replicate 47 df001CriticalIssue) SECURITY_IDS = 0 ∧
    calculate_category_score
      (List.replicate 46 df001CriticalIssue) SECURITY_IDS = 0 := by
  decide

/-- Claim C2 (code bug): the hardcoded-secret rule does not treat the two
environment shapes identically.  For the mapping `DB_HOST ↦ secretvalue` and
its equivalent list entry `DB_HOST=secretvalue`, the list shape is flagged
(the secret pattern is matched against the whole `KEY=VALUE` string, so the
value matches) while the mapping shape is not (the pattern is applied to the
key only). -/
theorem claim_C2_shape_divergence :
    hardcodedSecretsCheck
      { version := some (str "3"),
        services := some [(str "db",
          { environment := some (.list [str "DB_HOST=secretvalue"]) })] } =
      [hardcodedSecretIssue (str "db")] ∧
    hardcodedSecretsCheck
      { version := some (str "3"),
        services := some [(str "db",
          { environment :=
              some (.map [(str "DB_HOST", some (str "secretvalue"))]) })] } =
      [] := by
  decide

theorem insertIssue_perm (x : Issue) (l : List Issue) :
    (insertIssue x l).Perm (x :: l) := by
  induction l with
  | nil => exact List.Perm.refl _
  | cons y ys ih =>
    simp only [insertIssue]
    split_ifs with hc
    · exact (ih.cons y).trans (List.Perm.swap x y ys)
    · exact List.Perm.refl _

theorem insertIssue_sorted (x : Issue) (l : List Issue)
    (h : l.Pairwise (fun a b => sevRank b.severity ≤ sevRank a.severity)) :
    (insertIssue x l).Pairwise
      (fun a b => sevRank b.severity ≤ sevRank a.severity) := by
  induction l with
  | nil => simp [insertIssue]
  | cons y ys ih =>
    rw [List.pairwise_cons] at h
    obtain ⟨hy, hys⟩ := h
    simp only [insertIssue]
    split_ifs with hc
    · rw [List.pairwise_cons]
      refine ⟨?_, ih hys⟩
      intro b hb
      rcases List.mem_cons.mp ((insertIssue_perm x ys).mem_iff.mp hb) with
        hbx | hbys
      · rw [hbx]
        omega
      · exact hy b hbys
    · rw [List.pairwise_cons]
      refine ⟨?_, List.pairwise_cons.mpr ⟨hy, hys⟩⟩
      intro b hb
      rcases List.mem_cons.mp hb with hby | hbys
      · rw [hby]
        omega
      · exact le_trans (hy b hbys) (Nat.le_of_not_lt hc)

theorem insertIssue_filter (x : Issue) (l : List Issue) (s : Severity) :
    (insertIssue x l).filter (fun i => i.severity == s) =
      if x.severity == s then x :: l.filter (fun i => i.severity == s)
      else l.filter (fun i => i.severity == s) := by
  induction l with
  | nil =>
    cases hxs : x.severity == s <;>
      simp [insertIssue, List.filter_cons, hxs]
  | cons y ys ih =>
    simp only [insertIssue]
    by_cases hc : sevRank x.severity < sevRank y.severity
    · rw [if_pos hc, List.filter_cons, ih]
      cases hxs : x.severity == s with
      | true =>
        cases hys : y.severity == s with
        | true =>
          exfalso
          rw [eq_of_beq hxs, eq_of_beq hys] at hc
          omega
        | false => simp [List.filter_cons, hxs, hys]
      | false =>
        cases hys : y.severity == s <;> simp [List.filter_cons, hxs, hys]
    · rw [if_neg hc]
      simp only [List.filter_cons]

theorem sortIssues_cons (x : Issue) (l : List Issue) :
    sortIssues (x :: l) = insertIssue x (sortIssues l) := rfl

theorem sortIssues_perm (l : List Issue) : (sortIssues l).Perm l := by
  induction l with
  | nil => exact List.Perm.refl _
  | cons x xs ih =>
    rw [sortIssues_cons]
    exact (insertIssue_perm x (sortIssues xs)).trans (ih.cons x)

theorem sortIssues_sorted (l : List Issue) :
    (sortIssues l).Pairwise
      (fun a b => sevRank b.severity ≤ sevRank a.severity) := by
  induction l with
  | nil => simp [sortIssues]
  | cons x xs ih =>
    rw [sortIssues_cons]
    exact insertIssue_sorted x (sortIssues xs) ih

theorem sortIssues_stable (l : List Issue) (s : Severity) :
    (sortIssues l).filter (fun i => i.severity == s) =
      l.filter (fun i => i.severity == s) := by
  induction l with
  | nil => rfl
  | cons x xs ih =>
    rw [sortIssues_cons, insertIssue_filter, List.filter_cons, ih]

/-- Claim C3: the report sort is a permutation of the emitted issues, orders
them by descending severity under `Suggestion < Warning < Critical`, and is
stable (the subsequence of issues at each severity is preserved); in
particular emission order [Warning, Critical, Suggestion, Critical] sorts to
[Critical, Critical, Warning, Suggestion] with the two Criticals in emission
order. -/
theorem claim_C3_sort_stable_descending (l : List Issue) :
    (sortIssues l).Perm l ∧
    (sortIssues l).Pairwise
      (fun a b => sevRank b.severity ≤ sevRank a.severity) ∧
    (∀ s : Severity, (sortIssues l).filter (fun i => i.severity == s) =
      l.filter (fun i => i.severity == s)) ∧
    sortIssues [exIssueW, exIssueC1, exIssueS, exIssueC2] =
      [exIssueC1, exIssueC2, exIssueW, exIssueS] := by
  exact ⟨sortIssues_perm l, sortIssues_sorted l,
    fun s => sortIssues_stable l s, by decide⟩

/-- Claim C10: the registry lookup uppercases its query and is otherwise exact:
it succeeds precisely when the uppercased query is one of the registered ids,
any returned rule is registered and carries exactly that id, the 15 registered
ids (10 directive + 5 descriptor) are pairwise distinct, and in particular
`df001` and `DF001` resolve to the same rule. -/
theorem claim_C10_lookup_case_insensitive (s : Str) :
    ((get_rule_by_id s).isSome ↔ upperS s ∈ get_all_rules.map RuleMeta.id) ∧
    (∀ r, get_rule_by_id s = some r →
      r ∈ get_all_rules ∧ r.id = upperS s) ∧
    (get_all_rules.map RuleMeta.id).Nodup ∧
    DOCKERFILE_RULES.length = 10 ∧ COMPOSE_RULES.length = 5 ∧
    get_rule_by_id (str "df001") = get_rule_by_id (str "DF001") := by
  refine ⟨?_, ?_, by decide, by decide, by decide, by decide⟩
  · unfold get_rule_by_id
    rw [List.find?_isSome]
    constructor
    · rintro ⟨r, hr, hp⟩
      exact List.mem_map.mpr ⟨r, hr, eq_of_beq hp⟩
    · intro hmem
      obtain ⟨r, hr, hid⟩ := List.mem_map.mp hmem
      refine ⟨r, hr, ?_⟩
      rw [show RuleMeta.id r = r.id from rfl] at hid
      rw [hid]
      exact beq_self_eq_true _
  · intro r hr
    unfold get_rule_by_id at hr
    have hp := List.find?_some hr
    exact ⟨List.mem_of_find?_eq_some hr, eq_of_beq hp⟩

/-- Witness for C10: the lookup at the lowercase query `df001` succeeds, and
the latest-tag rule metadata is registered with id `DF001`, the uppercasing
of `df001`. -/
theorem claim_C10_witness :
    (get_rule_by_id (str "df001")).isSome ∧
    ((⟨str "DF001", str "Using latest tag", .Critical⟩ : RuleMeta) ∈
        get_all_rules ∧
      (⟨str "DF001", str "Using latest tag", .Critical⟩ : RuleMeta).id =
        upperS (str "df001")) :=
  ⟨(claim_C10_lookup_case_insensitive (str "df001")).1.mpr (by decide),
   (claim_C10_lookup_case_insensitive (str "df001")).2.1
     ⟨str "DF001", str "Using latest tag", .Critical⟩ (by decide)⟩

/-- Claim C8: the root-user rule emits exactly one issue with no anchor line
when no user-switch directive exists; otherwise its output is determined by
the last user-switch directive alone: exactly one issue when that directive's
argument, trimmed and lowercased, is `root` or `0`, and nothing otherwise. -/
theorem claim_C8_root_user (instrs : List Instruction) :
    (getInstructions instrs (str "USER") = [] →
      rootUserCheck instrs = [rootUserNoUserIssue] ∧
        rootUserNoUserIssue.line_number = none) ∧
    (∀ lastUser,
      (getInstructions instrs (str "USER")).getLast? = some lastUser →
      rootUserCheck instrs =
        if lowerS (trimS lastUser.arguments) == str "root" ||
            lowerS (trimS lastUser.arguments) == str "0" then
          [rootUserRootIssue lastUser.line_number]
        else []) := by
  constructor
  · intro h
    refine ⟨?_, rfl⟩
    simp [rootUserCheck, h]
  · intro lastUser h
    have hne : getInstructions instrs (str "USER") ≠ [] := by
      intro he
      rw [he] at h
      simp at h
    have hE : (getInstructions instrs (str "USER")).isEmpty = false := by
      cases hE : (getInstructions instrs (str "USER")).isEmpty
      · rfl
      · exact absurd (List.isEmpty_iff.mp hE) hne
    simp only [rootUserCheck, hE, Bool.false_eq_true, if_false, h]

/-- Witness for C8: with no user-switch directive, exactly the anchorless
issue is emitted; with user-switch directives `app` then ` ROOT `, only the
last one is inspected and it triggers the root issue at its line. -/
theorem claim_C8_witness :
    rootUserCheck [⟨str "FROM", str "alpine", 1, str "FROM alpine"⟩] =
        [rootUserNoUserIssue] ∧
      rootUserNoUserIssue.line_number = none ∧
    rootUserCheck
        [⟨str "USER", str "app", 1, str "USER app"⟩,
         ⟨str "user", str " ROOT ", 2, str "user  ROOT "⟩] =
      [rootUserRootIssue 2] := by
  refine ⟨((claim_C8_root_user
      [⟨str "FROM", str "alpine", 1, str "FROM alpine"⟩]).1 (by decide)).1,
    ((claim_C8_root_user
      [⟨str "FROM", str "alpine", 1, str "FROM alpine"⟩]).1 (by decide)).2, ?_⟩
  rw [(claim_C8_root_user
    [⟨str "USER", str "app", 1, str "USER app"⟩,
     ⟨str "user", str " ROOT ", 2, str "user  ROOT "⟩]).2
    ⟨str "user", str " ROOT ", 2, str "user  ROOT "⟩ (by decide)]
  decide

/-- Claim C5 (silent skipping): a physical line that is blank after trimming,
a comment line, or a line matching no directive keyword is dropped by the
parser loop and contributes no instruction; and the parser is total by
construction (`parse_content` returns a `List Instruction` for every input,
never an error). -/
theorem claim_C5_skipped_lines (l : Str) (ls : List Str) (i : Nat)
    (h : trimS l = [] ∨ (trimS l).head? = some '#' ∨
      matchInstr (trimS l) = none) :
    parseAuxS none (l :: ls) i = parseAuxS none ls (i + 1) := by
  rcases h with h | h | h
  · simp [parseAuxS, h]
  · simp [parseAuxS, h]
  · cases hg : ((trimS l).isEmpty || (trimS l).head? == some '#')
    · simp [parseAuxS, hg, h]
    · simp [parseAuxS, hg]

/-- Witness for C5: a comment line, a blank line and an unrecognized line are
each dropped in front of a directive line. -/
theorem claim_C5_witness :
    parseAuxS none [str "# comment", str "FROM alpine"] 0 =
        parseAuxS none [str "FROM alpine"] 1 ∧
    parseAuxS none [str "   ", str "FROM alpine"] 0 =
        parseAuxS none [str "FROM alpine"] 1 ∧
    parseAuxS none [str "GARBAGE line", str "FROM alpine"] 0 =
        parseAuxS none [str "FROM alpine"] 1 :=
  ⟨claim_C5_skipped_lines (str "# comment") [str "FROM alpine"] 0
      (Or.inr (Or.inl (by decide))),
   claim_C5_skipped_lines (str "   ") [str "FROM alpine"] 0
      (Or.inl (by decide)),
   claim_C5_skipped_lines (str "GARBAGE line") [str "FROM alpine"] 0
      (Or.inr (Or.inr (by decide)))⟩

theorem contains_false_not_mem {l : Str} {c : Char}
    (h : l.contains c = false) : c ∉ l := by
  simpa using h

theorem splitWhitespaceFirst_no_ws {s : Str} {c : Char}
    (hc : c ∈ splitWhitespaceFirst s) : isWs c = false := by
  have := List.mem_takeWhile_imp hc
  simpa using this

/-- Claim C7 (amended): for a base-image directive whose image reference is
not `scratch` and contains none of the separators `/`, `:`, `.`, `@`, the
rule stays silent exactly when the reference starts with none of the fixed
well-known base names, and emits exactly the single no-tag issue when it
starts with one of them.  (The source tests a name prefix, not name
equality.) -/
theorem claim_C7_prior_stage_vs_known_base (ins : Instruction) (ref : Str)
    (href : ref = splitWhitespaceFirst ins.arguments)
    (hscr : ref ≠ str "scratch")
    (h1 : ref.contains '/' = false) (h2 : ref.contains ':' = false)
    (h3 : ref.contains '.' = false) (h4 : ref.contains '@' = false) :
    (latestTagCheckInstr ins = [] ↔
      ∀ img ∈ COMMON_IMAGES, img.isPrefixOf ref = false) ∧
    ((∃ img ∈ COMMON_IMAGES, img.isPrefixOf ref = true) →
      latestTagCheckInstr ins = [latestTagIssueNoTag ins.line_number ref]) := by
  have hbeq : (ref == str "scratch") = false := beq_eq_false_iff_ne.mpr hscr
  have hexp : explicitTagMatch ref = false := by
    have hall : List.takeWhile (fun c => !(c == ':' || c == '@' || isWs c))
        ref = ref := by
      rw [List.takeWhile_eq_self_iff]
      intro c hcmem
      have hc1 : c ≠ ':' := fun he => contains_false_not_mem h2 (he ▸ hcmem)
      have hc2 : c ≠ '@' := fun he => contains_false_not_mem h4 (he ▸ hcmem)
      have hc3 : isWs c = false := splitWhitespaceFirst_no_ws (href ▸ hcmem)
      simp [hc1, hc2, hc3]
    simp only [explicitTagMatch, hall, List.drop_length]
    simp
  have hsuffix : (str ":latest").isSuffixOf ref = false := by
    cases hs : (str ":latest").isSuffixOf ref with
    | false => rfl
    | true =>
      exfalso
      have hsub := (List.isSuffixOf_iff_suffix.mp hs).sublist
      exact contains_false_not_mem h2 (hsub.mem (by decide))
  simp only [latestTagCheckInstr, ← href, hbeq, h1, h2, h3, h4, hsuffix, hexp,
    Bool.not_false, Bool.and_true, Bool.true_and, Bool.false_eq_true,
    if_false, Bool.not_true, Bool.and_false]
  cases hAny : COMMON_IMAGES.any (fun img => img.isPrefixOf ref) with
  | false =>
    simp only [Bool.not_false, if_true]
    constructor
    · constructor
      · intro _ img himg
        exact Bool.eq_false_iff.mpr ((List.any_eq_false.mp hAny) img himg)
      · intro _
        trivial
    · rintro ⟨img, himg, hpre⟩
      have hx := (@List.any_eq_true _ (fun im => List.isPrefixOf im ref)
        COMMON_IMAGES).mpr ⟨img, himg, hpre⟩
      rw [hAny] at hx
      exact absurd hx Bool.false_ne_true
  | true =>
    simp only [Bool.not_true, Bool.false_eq_true, if_false, if_true]
    constructor
    · constructor
      · intro hcontra
        exact absurd hcontra (by simp)
      · intro hall
        obtain ⟨img, himg, hpre⟩ := List.any_eq_true.mp hAny
        rw [hall img himg] at hpre
        exact absurd hpre Bool.false_ne_true
    · intro _
      trivial

/-- Counterexample for C7 as stated: the reference `nodejs` matches none of
the well-known base names, yet the rule emits the no-tag issue for it,
because the source compares by `starts_with` and `nodejs` starts with
`node`. -/
theorem claim_C7_counterexample :
    latestTagCheckInstr ⟨str "FROM", str "nodejs", 1, str "FROM nodejs"⟩ =
      [latestTagIssueNoTag 1 (str "nodejs")] ∧
    str "nodejs" ∉ COMMON_IMAGES := by
  decide

/-- Witness for C7: `ubuntu` (a well-known name) yields exactly the no-tag
issue, and `builder` (a prior-stage alias) yields nothing. -/
theorem claim_C7_witness :
    latestTagCheckInstr ⟨str "FROM", str "ubuntu", 1, str "FROM ubuntu"⟩ =
      [latestTagIssueNoTag 1 (str "ubuntu")] ∧
    latestTagCheckInstr
      ⟨str "FROM", str "builder as x", 2, str "FROM builder as x"⟩ = [] :=
  ⟨(claim_C7_prior_stage_vs_known_base
      ⟨str "FROM", str "ubuntu", 1, str "FROM ubuntu"⟩ (str "ubuntu")
      (by decide) (by decide) (by decide) (by decide) (by decide)
      (by decide)).2 ⟨str "ubuntu", by decide, by decide⟩,
   (claim_C7_prior_stage_vs_known_base
      ⟨str "FROM", str "builder as x", 2, str "FROM builder as x"⟩
      (str "builder") (by decide) (by decide) (by decide) (by decide)
      (by decide) (by decide)).1.mpr (by decide)⟩

/-- Claim C6 (amended): a directive line carrying a trailing continuation
marker consumes the following physical lines until one lacks a trailing
marker or input ends (`consumedLines`); the instruction's arguments are the
argument capture and the consumed trimmed lines joined with one added space
each, with the marker (backslash plus any whitespace after it) stripped from
every piece except the final consumed line — whitespace before a stripped
backslash is retained, and a marker on the final line survives when input
ended — and `raw_line` is the trimmed lines joined by newlines. -/
theorem claim_C6_continuations (l : Str) (rest : List Str) (i : Nat)
    (nm args0 : Str)
    (hm : matchInstr (trimS l) = some (nm, args0))
    (hc : contMatch (trimS l) = true) :
    parseAuxS none (l :: rest) i =
      { name := nm,
        arguments := trimS (specArgsJoin args0 (consumedLines rest)),
        line_number := i + 1,
        raw_line := specJoin '\n' (trimS l :: consumedLines rest) } ::
        parseAuxS none (rest.drop (consumedLines rest).length)
          (i + 1 + (consumedLines rest).length) := by
  have hguard := matchInstr_guard hm
  simp only [parseAuxS, hguard, Bool.false_eq_true, if_false, hm, hc, if_true]
  rw [parseAuxS_some_eq]
  have hargs := foldl_extendP_args (consumedLines rest)
    ⟨nm, args0, trimS l, i + 1⟩ (chainOk_consumedLines rest)
  have hraw := foldl_extendP_raw (consumedLines rest)
    ⟨nm, args0, trimS l, i + 1⟩
  have hname := foldl_extendP_name (consumedLines rest)
    ⟨nm, args0, trimS l, i + 1⟩
  have hstart := foldl_extendP_start (consumedLines rest)
    ⟨nm, args0, trimS l, i + 1⟩
  simp only [finishP]
  rw [hname, hargs, hstart, hraw]

/-- Counterexample for C6 as stated: for the two-line input
`RUN a \` + newline + `  b \` the parser emits arguments `a  b \` — the
final consumed line's marker is not stripped (input ended first) and the
pieces are separated by two spaces (the space before the stripped backslash
is retained) — and `raw_line` is `RUN a \` + newline + `b \`, the trimmed
lines rather than the original text. -/
theorem claim_C6_counterexample :
    parse_content "RUN a \\\n  b \\" =
      [⟨str "RUN", str "a  b \\", 1, str "RUN a \\\nb \\"⟩] ∧
    (str "a  b \\").getLast? = some '\\' ∧
    str "RUN a \\\nb \\" ≠ str "RUN a \\\n  b \\" := by
  decide

/-- Witness for C6: the claimed shape instantiated on a three-line
continuation group. -/
theorem claim_C6_witness :
    parseAuxS none
        [str "RUN apk add --no-cache \\", str "  curl \\", str "  git"] 0 =
      { name := str "RUN",
        arguments := trimS (specArgsJoin (str "apk add --no-cache \\")
          (consumedLines [str "  curl \\", str "  git"])),
        line_number := 0 + 1,
        raw_line := specJoin '\n' (trimS (str "RUN apk add --no-cache \\") ::
          consumedLines [str "  curl \\", str "  git"]) } ::
        parseAuxS none
          ([str "  curl \\", str "  git"].drop
            (consumedLines [str "  curl \\", str "  git"]).length)
          (0 + 1 + (consumedLines [str "  curl \\", str "  git"]).length) :=
  claim_C6_continuations (str "RUN apk add --no-cache \\")
    [str "  curl \\", str "  git"] 0 (str "RUN")
    (str "apk add --no-cache \\") (by decide) (by decide)

/-- Claim C9: every parsed instruction's name is an all-uppercase member of
the fixed 18-keyword set, line numbers are 1-indexed, and they are strictly
increasing along the output sequence. -/
theorem claim_C9_parse_invariants (content : String) :
    (∀ ins ∈ parse_content content,
      ins.name ∈ KEYWORDS ∧ upperS ins.name = ins.name ∧
        1 ≤ ins.line_number) ∧
    (parse_content content).Pairwise
      (fun a b => a.line_number < b.line_number) ∧
    KEYWORDS.length = 18 := by
  have h := parseAuxS_invariant (rustLines (str content)) none 0 trivial
  refine ⟨?_, h.2, by decide⟩
  intro ins hins
  obtain ⟨hk, hlb⟩ := h.1 ins hins
  have hupper : ∀ k ∈ KEYWORDS, upperS k = k := by decide
  exact ⟨hk, hupper _ hk, hlb⟩

/-- Witness for C9: the first instruction parsed from a two-line lowercase
input is the uppercase keyword `FROM` at line 1. -/
theorem claim_C9_witness :
    (⟨str "FROM", str "x", 1, str "from x"⟩ : Instruction).name ∈ KEYWORDS ∧
    upperS (⟨str "FROM", str "x", 1, str "from x"⟩ : Instruction).name =
      (⟨str "FROM", str "x", 1, str "from x"⟩ : Instruction).name ∧
    1 ≤ (⟨str "FROM", str "x", 1, str "from x"⟩ : Instruction).line_number :=
  (claim_C9_parse_invariants "from x\nrun y").1
    ⟨str "FROM", str "x", 1, str "from x"⟩ (by decide)
